import Mathlib

/-!
Shallow embedding of `Deck-Primer-Automation.py`, the layout engine for
deck-primer card images.  Python strings are modelled as `List Char`, Python
floats as exact rationals `ℚ` (every float in the program is a decimal
constant that is only added, subtracted, multiplied, compared, and
truncated), Python ints as `ℤ`, and the OpenCV glyph-metrics oracle
`cv2.getTextSize` as an abstract function parameter.  Mutation of a `TextBox`
object is modelled by explicit state passing; the self-recursion of
`calculate_text_bb`, which need not terminate for arbitrary inputs, carries
an explicit fuel parameter, `none` meaning the Python recursion has not
terminated within that many measurement passes.  Drawing side effects on a
canvas are modelled as a trace of draw commands, and the numpy pixel buffer
of `place_qr` as a function from (row, column, channel) to intensity.
-/

set_option maxRecDepth 100000

/-- Python whitespace test used by `str.lstrip()`. -/
def isPyWhitespace (c : Char) : Bool :=
  c = ' ' || c = '\t' || c = '\n' || c = '\r' || c = '\x0b' || c = '\x0c'

/-- Python `str.lstrip()`: drop leading whitespace. -/
def pyLstrip (s : List Char) : List Char := s.dropWhile isPyWhitespace

/-- Python `str.split(sep)` for the two-character paragraph marker `"\p"`
(line 94): non-overlapping left-to-right splitting, with
`''.split(sep) = ['']`. -/
def splitOnPara : List Char → List (List Char)
  | [] => [[]]
  | [c] => [[c]]
  | c :: d :: rest =>
    if c = '\\' ∧ d = 'p' then [] :: splitOnPara rest
    else
      match splitOnPara (d :: rest) with
      | [] => [[c]]
      | t :: ts => (c :: t) :: ts

/-- Abstract glyph-metrics oracle:
`cv2.getTextSize(text, font, fontScale, thickness)[0] = (width, height)` in
pixels.  The font identity (`cv2.FONT_HERSHEY_SIMPLEX` throughout the
program) is absorbed into the function. -/
abbrev Metrics : Type := List Char → ℚ → ℤ → ℕ × ℕ

/-- The `TextBox` class (lines 45-76): configuration attributes plus the
computed measurement state.  Default field values are the Python keyword
defaults. -/
structure TextBox where
  name : String
  text : List Char
  font_scale : ℚ
  font_width : ℤ
  font_color : ℤ × ℤ × ℤ
  left_margin : ℤ
  right_margin : ℤ
  line_spacing : ℚ
  paragraph_break : Bool := false
  circle : Bool := true
  circle_size : ℤ := 25
  paragraph_spacing : ℚ := 3 / 2
  bold_words : List (List Char) := []
  delim : Char := ' '
  splitter : List Char := []
  line_height : ℤ := 0
  height : ℤ := 0
  width : ℤ := 0
  bounding_box : ℤ × ℤ := (0, 0)
  paragraphs : List (List (List Char)) := []
  deriving DecidableEq

/-- One word of the wrap loop (lines 106-114): `lstrip`, a leading space for
every word but the first, and the joiner suffix for non-final words when the
delimiter is not a space.  `n` is the number of words, `ix` the word index. -/
def processWord (delim : Char) (splitter : List Char) (n ix : ℕ) (w : List Char) :
    List Char :=
  let w1 := pyLstrip w
  let w2 := if ix ≠ 0 then ' ' :: w1 else w1
  if ix ≠ n - 1 ∧ delim ≠ ' ' then w2 ++ splitter else w2

/-- The processed word sequence of one raw paragraph. -/
def processedWords (delim : Char) (splitter : List Char) (ws : List (List Char)) :
    List (List Char) :=
  ws.enum.map fun p => processWord delim splitter ws.length p.1 p.2

/-- One step of the greedy packing loop (lines 116-128), acting on the state
`(full_text, current_X)`: if the word still fits, append it and advance the
cursor, otherwise emit a line break, drop the word's first character
(`word[1:]`), and restart the cursor at the left margin plus the width of the
shortened word. -/
def wrapStep (M : Metrics) (sc : ℚ) (fw limit lm : ℤ) (acc : List Char × ℤ)
    (w : List Char) : List Char × ℤ :=
  if acc.2 + ((M w sc fw).1 : ℤ) ≤ limit then
    (acc.1 ++ w, acc.2 + ((M w sc fw).1 : ℤ))
  else
    (acc.1 ++ '\n' :: w.tail, lm + ((M w.tail sc fw).1 : ℤ))

/-- The word wrap of one raw paragraph (lines 101-130): the packed text with
`'\n'` marking inserted line breaks, and the final cursor.
`limit = image.shape[1] - right_margin`; `lm` is the (possibly
bullet-shifted) left margin. -/
def wrapText (M : Metrics) (sc : ℚ) (fw limit lm : ℤ) (delim : Char)
    (splitter : List Char) (raw : List Char) : List Char × ℤ :=
  (processedWords delim splitter (raw.splitOn delim)).foldl
    (wrapStep M sc fw limit lm) ([], lm)

/-- Lines 140-148: one line's contribution to the running `(height, width)`
pair.  The inter-line spacing `int(space_size[1] * line_spacing)` is added
for every line but the last of the paragraph; the width is the running
maximum of the line widths.  All the truncated float products in the program
are nonnegative, so Python `int(...)` is the floor. -/
def measureLine (M : Metrics) (sc : ℚ) (fw : ℤ) (spaceH : ℕ) (lsp : ℚ)
    (nLines : ℕ) (acc : ℤ × ℤ) (p : ℕ × List Char) : ℤ × ℤ :=
  let ls := M p.2 sc fw
  (acc.1 + (ls.2 : ℤ) + (if p.1 ≠ nLines - 1 then ⌊(spaceH : ℚ) * lsp⌋ else 0),
   if (ls.1 : ℤ) > acc.2 then (ls.1 : ℤ) else acc.2)

/-- One indexed paragraph of the height/width accumulation (lines 136-148):
add `int(space_size[1] * paragraph_spacing * line_spacing)` before every
paragraph but the first, then fold the paragraph's lines. -/
def paraStep (M : Metrics) (sc : ℚ) (fw : ℤ) (spaceH : ℕ) (psp lsp : ℚ)
    (hw : ℤ × ℤ) (q : ℕ × List (List Char)) : ℤ × ℤ :=
  (q.2.enum).foldl (measureLine M sc fw spaceH lsp q.2.length)
    (if q.1 ≠ 0 then (hw.1 + ⌊(spaceH : ℚ) * (psp * lsp)⌋, hw.2) else hw)

/-- Lines 136-148: accumulate height and width over all paragraphs, starting
from the box's current `height`/`width` (which are NOT reset here). -/
def measureParas (M : Metrics) (sc : ℚ) (fw : ℤ) (spaceH : ℕ) (psp lsp : ℚ)
    (paras : List (List (List Char))) (acc : ℤ × ℤ) : ℤ × ℤ :=
  (paras.enum).foldl (paraStep M sc fw spaceH psp lsp) acc

/-- Lines 86-88: the effective left margin, shifted right by the bullet
radius plus a space width when paragraph mode is on. -/
def bulletLeftMargin (M : Metrics) (tb : TextBox) : ℤ :=
  if tb.paragraph_break
  then tb.left_margin + tb.circle_size + ((M [' '] tb.font_scale tb.font_width).1 : ℤ)
  else tb.left_margin

/-- Lines 92-133: the wrapped paragraphs (each a list of lines) of one
measurement pass. -/
def boxParas (M : Metrics) (imageW : ℤ) (tb : TextBox) : List (List (List Char)) :=
  ((if tb.paragraph_break then splitOnPara tb.text else [tb.text]).map fun p =>
    (wrapText M tb.font_scale tb.font_width (imageW - tb.right_margin)
      (bulletLeftMargin M tb) tb.delim tb.splitter p).1).map
    fun p => p.splitOn '\n'

/-- One measurement pass of `calculate_text_bb` (lines 80-151): reference
line height from a single space, bullet margin shift, paragraph split, word
wrap, height/width accumulation, bounding box `(width + 100, height + 80)`.
Mutation of `self` is modelled by returning the updated box. -/
def measureOnce (M : Metrics) (imageW : ℤ) (tb : TextBox) : TextBox :=
  let spaceSize := M [' '] tb.font_scale tb.font_width
  let hw := measureParas M tb.font_scale tb.font_width spaceSize.2
    tb.paragraph_spacing tb.line_spacing (boxParas M imageW tb) (tb.height, tb.width)
  { tb with
    line_height := (spaceSize.2 : ℤ)
    left_margin := bulletLeftMargin M tb
    paragraphs := boxParas M imageW tb
    height := hw.1
    width := hw.2
    bounding_box := (hw.2 + 100, hw.1 + 80) }

/-- Log line of line 155. -/
def minScaleMsg (n : String) : String :=
  "Reached minimum font scale for " ++ n ++ ".\n"

/-- Log line of line 162. -/
def downscaleMsg (n : String) (q : ℚ) : String :=
  "Exceeded maximum bounding box for " ++ n ++
    ". Recalculating with font scale " ++ toString q ++ ".\n"

/-- Lines 161-166: the downscaled box passed to the recursive call: scale
decremented by 0.5, stroke width recomputed from the new scale, left margin
restored to its pre-shift value, height and width reset to zero. -/
def downBox (M : Metrics) (imageW : ℤ) (tb : TextBox) : TextBox :=
  { measureOnce M imageW tb with
    font_scale := tb.font_scale - 1 / 2
    font_width := ⌈(tb.font_scale - 1 / 2) * 3⌉
    left_margin := tb.left_margin
    height := 0
    width := 0 }

/-- `TextBox.calculate_text_bb` (lines 79-169) with explicit recursion fuel
(`none` = the Python recursion does not terminate within `fuel` measurement
passes).  The recursive call at line 167 omits the `logs` argument, so all
appends made inside it go to the function's shared mutable default-argument
list and never reach the caller's list: this is modelled by running the
recursive call on an empty log and discarding its log component. -/
def TextBox.calculate_text_bb (M : Metrics) (imageW maxBBSize : ℤ)
    (minFontScale : ℚ) :
    ℕ → TextBox → List String → Option (TextBox × List String)
  | 0, _, _ => none
  | fuel + 1, tb, logs =>
    let tb1 := measureOnce M imageW tb
    if tb1.font_scale = minFontScale then
      some (tb1, logs ++ [minScaleMsg tb1.name])
    else if tb1.bounding_box.2 > maxBBSize then
      match TextBox.calculate_text_bb M imageW maxBBSize minFontScale fuel
          (downBox M imageW tb) [] with
      | some (tb3, _) =>
        some (tb3, logs ++ [downscaleMsg tb1.name (tb.font_scale - 1 / 2)])
      | none => none
    else
      some (tb1, logs)

/-- A pixel buffer: (row, column, channel) ↦ intensity. -/
abbrev Img : Type := ℤ → ℤ → ℤ → ℤ

/-- The coordinate pair returned by `place_qr` (line 246):
`(x + qr_width, y + padding/2 + qr_height)`. -/
def place_qr_coords (qrH qrW x y : ℤ) (padding : ℕ) : ℤ × ℤ :=
  (x + qrW, y + ((padding / 2 : ℕ) : ℤ) + qrH)

/-- `place_qr` (lines 239-246): blit the `qrH × qrW` buffer `qr` with its
top-left corner at column `x`, row `y + padding/2` (numpy slice assignment,
modelled pointwise), and return `place_qr_coords`.  The only call site uses
the default `padding = 200`. -/
def place_qr (image qr : Img) (qrH qrW : ℤ) (x y : ℤ) (padding : ℕ) :
    Img × (ℤ × ℤ) :=
  (fun r c ch =>
      if y + ((padding / 2 : ℕ) : ℤ) ≤ r ∧ r < y + ((padding / 2 : ℕ) : ℤ) + qrH ∧
          x ≤ c ∧ c < x + qrW then
        qr (r - (y + ((padding / 2 : ℕ) : ℤ))) (c - x) ch
      else image r c ch,
    place_qr_coords qrH qrW x y padding)

/-- `calculate_vertical_space` (lines 249-260): margins, separator-line
spacing, QR height and padding, plus each box's bounding-box height and line
height. -/
def calculate_vertical_space (text_boxes : List TextBox)
    (qr_height top_margin bot_margin line_break_spacing num_line_breaks padding : ℤ) :
    ℤ :=
  text_boxes.foldl (fun vs tb => vs + tb.bounding_box.2 + tb.line_height)
    (top_margin + bot_margin + num_line_breaks * line_break_spacing + qr_height + padding)

/-- One validated CSV record, restricted to the fields `create_image` reads.
`qr_url` is omitted: the QR buffer is external input that is resized to
`(qr_size, qr_size)`, so only its shape reaches the layout engine.
`bullet_points` is validated to 0/1 and used as a truth value. -/
structure Series where
  image_name : String
  title_text : List Char
  points_text : List Char
  summary_text : List Char
  back_title_text : List Char
  back_body_text : List Char
  title_font_scale : ℚ
  points_font_scale : ℚ
  summary_font_scale : ℚ
  back_title_font_scale : ℚ
  back_body_font_scale : ℚ
  title_font_color : ℤ
  points_font_color : ℤ
  summary_font_color : ℤ
  back_title_font_color : ℤ
  back_body_font_color : ℤ
  title_line_spacing : ℚ
  points_line_spacing : ℚ
  summary_line_spacing : ℚ
  back_title_line_spacing : ℚ
  back_body_line_spacing : ℚ
  top_margin : ℤ
  bot_margin : ℤ
  left_margin : ℤ
  right_margin : ℤ
  qr_size : ℤ
  qr_offset : ℤ
  line_break_spacing : ℤ
  bullet_points : Bool
  bold_words : List Char
  paragraph_spacing : ℚ
  deriving DecidableEq

/-- `create_blank_image` resolution (3288, 4488, 3): `shape[0] = 3288` rows
(the height used by the vertical-budget check) and `shape[1] = 4488` columns
(the width used by the wrap). -/
def canvasH : ℤ := 3288

/-- Canvas width `image.shape[1] = 4488`. -/
def canvasW : ℤ := 4488

/-- Lines 379-390: the summary text box. -/
def mkSummaryBox (s : Series) : TextBox :=
  { name := "Summary Text"
    text := s.summary_text
    font_scale := s.summary_font_scale
    font_width := ⌈s.summary_font_scale * 3⌉
    font_color := (s.summary_font_color, s.summary_font_color, s.summary_font_color)
    left_margin := s.left_margin
    right_margin := s.right_margin
    line_spacing := s.summary_line_spacing
    bold_words := s.bold_words.splitOn ';' }

/-- The constant caption string of line 402. -/
def qrCaption : List Char :=
  ("Scan the QR code on the right to see the full deck list on Moxfield. " ++
   "For more information, see the other side of this card.").data

/-- Lines 400-410: the QR caption box, styled from the measured summary box;
its right margin reserves room for the resized QR image plus `qr_offset`. -/
def mkQrTextBox (s : Series) (summary1 : TextBox) : TextBox :=
  { name := "QR Text"
    text := qrCaption
    font_scale := summary1.font_scale
    font_width := summary1.font_width
    font_color := summary1.font_color
    left_margin := s.left_margin
    right_margin := s.right_margin + s.qr_offset + s.qr_size
    line_spacing := s.summary_line_spacing }

/-- Lines 414-424: the points marker box `"Points: "`. -/
def mkPointsPreBox (s : Series) : TextBox :=
  { name := "Points Prefix"
    text := "Points: ".data
    font_scale := s.points_font_scale
    font_width := ⌈s.points_font_scale * 3⌉
    font_color := (s.points_font_color, s.points_font_color, s.points_font_color)
    left_margin := s.left_margin
    right_margin := s.right_margin
    line_spacing := s.points_line_spacing }

/-- Lines 427-439: the points value box, semicolon-delimited and comma-joined,
whose left margin starts after the measured width `preWidth` of the points
marker box. -/
def mkPointsTextBox (s : Series) (preWidth : ℤ) : TextBox :=
  { name := "Points Text"
    text := s.points_text
    font_scale := s.points_font_scale
    font_width := ⌈s.points_font_scale * 3⌉
    font_color := (s.points_font_color, s.points_font_color, s.points_font_color)
    left_margin := s.left_margin + preWidth
    right_margin := s.right_margin
    line_spacing := s.points_line_spacing
    delim := ';'
    splitter := [','] }

/-- Lines 451-461: the front title box. -/
def mkTitleBox (s : Series) : TextBox :=
  { name := "Front Title"
    text := s.title_text
    font_scale := s.title_font_scale
    font_width := ⌈s.title_font_scale * 3⌉
    font_color := (s.title_font_color, s.title_font_color, s.title_font_color)
    left_margin := s.left_margin
    right_margin := s.right_margin
    line_spacing := s.title_line_spacing }

/-- Lines 465-479: the back body box (paragraph mode with optional bullets). -/
def mkBackTextBox (s : Series) : TextBox :=
  { name := "Back Body Text"
    text := s.back_body_text
    font_scale := s.back_body_font_scale
    font_width := ⌈s.back_body_font_scale * 3⌉
    font_color := (s.back_body_font_color, s.back_body_font_color, s.back_body_font_color)
    left_margin := s.left_margin
    right_margin := s.right_margin
    line_spacing := s.back_body_line_spacing
    bold_words := s.bold_words.splitOn ';'
    paragraph_break := true
    circle := s.bullet_points
    paragraph_spacing := s.paragraph_spacing }

/-- Lines 482-492: the back title box. -/
def mkBackTitleBox (s : Series) : TextBox :=
  { name := "Back Title Text"
    text := s.back_title_text
    font_scale := s.back_title_font_scale
    font_width := ⌈s.back_title_font_scale * 3⌉
    font_color := (s.back_title_font_color, s.back_title_font_color, s.back_title_font_color)
    left_margin := s.left_margin
    right_margin := s.right_margin
    line_spacing := s.back_title_line_spacing }

/-- Lines 442-449 of `create_image`: if the measured points value box ended
at a smaller scale than the points marker box, re-measure the marker at the
value's scale (taking the value's stroke width), then re-measure the value
with its left margin recomputed from the updated marker width. -/
def pointsRescale (M : Metrics) (fuel : ℕ) (s : Series) (pre pts : TextBox)
    (logs : List String) : Option (TextBox × TextBox × List String) :=
  if pts.font_scale < pre.font_scale then
    match TextBox.calculate_text_bb M canvasW 200 pts.font_scale fuel
        { pre with font_scale := pts.font_scale, font_width := pts.font_width }
        (logs ++
          [s.image_name ++
            " points text is smaller than the points prefix, recalculating.\n"]) with
    | none => none
    | some (pre2, logs2) =>
      match TextBox.calculate_text_bb M canvasW 600 pts.font_scale fuel
          { pts with left_margin := s.left_margin + pre2.width } logs2 with
      | none => none
      | some (pts2, logs3) => some (pre2, pts2, logs3)
  else
    some (pre, pts, logs)

/-- One drawing side effect on a canvas. -/
inductive DrawCmd where
  | textCmd (tb : TextBox) (x y : ℤ) (centered bold : Bool)
  | lineCmd (x1 x2 y1 y2 : ℤ)
  | qrCmd (x y : ℤ)
  deriving DecidableEq

/-- `show_margins` (lines 32-43) at the trace level. -/
def show_margins_cmds (x_margin y_margin : ℤ) : List DrawCmd :=
  [DrawCmd.lineCmd x_margin (canvasW - x_margin) y_margin y_margin,
   DrawCmd.lineCmd x_margin (canvasW - x_margin) (canvasH - y_margin) (canvasH - y_margin),
   DrawCmd.lineCmd x_margin x_margin y_margin (canvasH - y_margin),
   DrawCmd.lineCmd (canvasW - x_margin) (canvasW - x_margin) y_margin (canvasH - y_margin)]

/-- Line 531's warning. -/
def frontOverflowMsg (n : String) : String :=
  "Front text uses too much vertical space for " ++ n ++ ".\n"

/-- Line 546's warning. -/
def backOverflowMsg : String :=
  "Back text uses too much vertical space.\n"

/-- The observable result of `create_image`: the two canvases as draw-command
traces, the text-box list of line 564, and the accumulated log. -/
structure CreateImageResult where
  front : List DrawCmd
  back : List DrawCmd
  text_boxes : List TextBox
  logs : List String
  deriving DecidableEq

/-- The measured boxes of one `create_image` run (lines 379-493), plus the
log as it stands after the last measurement. -/
structure MeasuredBoxes where
  summary1 : TextBox
  qrText1 : TextBox
  pre2 : TextBox
  pts2 : TextBox
  title1 : TextBox
  backText1 : TextBox
  backTitle1 : TextBox
  logs : List String
  deriving DecidableEq

/-- The measurement phase of `create_image` (lines 346-493): construct and
measure all seven boxes with the literal height budgets and scale floors of
the source, including the points-rescale rule. -/
def computeBoxes (M : Metrics) (fuel : ℕ) (save : Bool) (s : Series)
    (logs0 : List String) : Option MeasuredBoxes := do
  let logs := logs0 ++ ["Calculating bounding boxes for " ++ s.image_name ++ ".\n"]
  let (summary1, logs) ←
    TextBox.calculate_text_bb M canvasW 1000 (5 / 2) fuel (mkSummaryBox s) logs
  let logs := if save then logs ++ ["Saving " ++ s.image_name ++ " QR code.\n"] else logs
  let (qrText1, logs) ←
    TextBox.calculate_text_bb M canvasW 500 summary1.font_scale fuel
      (mkQrTextBox s summary1) logs
  let (pre1, logs) ←
    TextBox.calculate_text_bb M canvasW 200 (summary1.font_scale + 1 / 2) fuel
      (mkPointsPreBox s) logs
  let (pts1, logs) ←
    TextBox.calculate_text_bb M canvasW 600 (summary1.font_scale + 1 / 2) fuel
      (mkPointsTextBox s pre1.width) logs
  let (pre2, pts2, logs) ← pointsRescale M fuel s pre1 pts1 logs
  let (title1, logs) ←
    TextBox.calculate_text_bb M canvasW 280 (pts2.font_scale + 1 / 2) fuel
      (mkTitleBox s) logs
  let (backText1, logs) ←
    TextBox.calculate_text_bb M canvasW 2400 (5 / 2) fuel (mkBackTextBox s) logs
  let (backTitle1, logs) ←
    TextBox.calculate_text_bb M canvasW 280 (backText1.font_scale + 1) fuel
      (mkBackTitleBox s) logs
  some { summary1 := summary1, qrText1 := qrText1, pre2 := pre2, pts2 := pts2,
         title1 := title1, backText1 := backText1, backTitle1 := backTitle1,
         logs := logs }

/-- `front_vertical_space` (lines 496-500). -/
def frontVS (s : Series) (b : MeasuredBoxes) : ℤ :=
  calculate_vertical_space [b.title1, b.pts2, b.summary1] s.qr_size
    s.top_margin s.bot_margin s.line_break_spacing 2 100

/-- `back_vertical_space` (lines 502-505). -/
def backVS (s : Series) (b : MeasuredBoxes) : ℤ :=
  calculate_vertical_space [b.backTitle1] 0
    s.top_margin s.bot_margin s.line_break_spacing 1
    (b.backText1.line_height + b.backText1.height)

/-- The front face (lines 507-531): either the eight draw commands of the
fitting layout, or no drawing at all plus the overflow warning. -/
def frontFace (s : Series) (b : MeasuredBoxes) (logs : List String) :
    List DrawCmd × List String :=
  if canvasH - frontVS s b ≥ 0 then
    let title_text_Y := s.top_margin + b.title1.line_height
    let title_points_line_Y :=
      title_text_Y + b.title1.bounding_box.2 - s.line_break_spacing
    let points_text_Y :=
      title_points_line_Y + 2 * s.line_break_spacing + b.pts2.line_height
    let summary_text_Y := points_text_Y + b.pts2.bounding_box.2 + b.summary1.line_height
    let summary_qr_line_Y :=
      summary_text_Y + b.summary1.bounding_box.2 + s.line_break_spacing
    let qr_bottom_Y :=
      (place_qr_coords s.qr_size s.qr_size
        (canvasW - s.right_margin - s.qr_size) summary_qr_line_Y 200).2
    ([DrawCmd.textCmd b.title1 s.left_margin title_text_Y true false,
      DrawCmd.lineCmd (s.left_margin - 50) (canvasW - s.right_margin + 50)
        title_points_line_Y title_points_line_Y,
      DrawCmd.textCmd b.pre2 s.left_margin points_text_Y false false,
      DrawCmd.textCmd b.pts2 (s.left_margin + b.pre2.width) points_text_Y false false,
      DrawCmd.textCmd b.summary1 s.left_margin summary_text_Y false true,
      DrawCmd.lineCmd (s.left_margin - 50) (canvasW - s.right_margin + 50)
        summary_qr_line_Y summary_qr_line_Y,
      DrawCmd.qrCmd (canvasW - s.right_margin - s.qr_size) summary_qr_line_Y,
      DrawCmd.textCmd b.qrText1 s.left_margin
        (qr_bottom_Y - b.qrText1.bounding_box.2 +
          (b.qrText1.bounding_box.2 - b.qrText1.height) / 2) false false],
     logs)
  else
    ([], logs ++ [frontOverflowMsg s.image_name])

/-- The back face (lines 534-546): either its three draw commands, or no
drawing at all plus the overflow warning. -/
def backFace (s : Series) (b : MeasuredBoxes) (logs : List String) :
    List DrawCmd × List String :=
  if canvasH - backVS s b ≥ 0 then
    let back_title_text_Y := s.top_margin + b.backTitle1.line_height
    let back_title_body_line_Y :=
      back_title_text_Y + b.backTitle1.bounding_box.2 - s.line_break_spacing
    let back_body_text_Y :=
      back_title_body_line_Y + 2 * s.line_break_spacing + b.backText1.line_height
    ([DrawCmd.textCmd b.backTitle1 s.left_margin back_title_text_Y true false,
      DrawCmd.lineCmd (s.left_margin - 50) (canvasW - s.right_margin + 50)
        back_title_body_line_Y back_title_body_line_Y,
      DrawCmd.textCmd b.backText1 s.left_margin back_body_text_Y false true],
     logs)
  else
    ([], logs ++ [backOverflowMsg])

/-- The composition phase of `create_image` (lines 495-567): vertical-budget
checks, face drawing or overflow warnings, optional margin guides, save log,
and the text-box list of line 564. -/
def composeResult (s : Series) (save margins : Bool) (b : MeasuredBoxes) :
    CreateImageResult :=
  let fp := frontFace s b b.logs
  let bp := backFace s b fp.2
  { front := fp.1 ++
      (if margins then show_margins_cmds (s.left_margin - 50) (s.top_margin - 50) else [])
    back := bp.1 ++
      (if margins then show_margins_cmds (s.left_margin - 50) (s.top_margin - 50) else [])
    text_boxes := [b.title1, b.pre2, b.pts2, b.summary1, b.qrText1, b.backTitle1,
      b.backText1]
    logs := if save then bp.2 ++ ["Saving " ++ s.image_name ++ ".\n"] else bp.2 }

/-- `create_image` (lines 346-567).  File and window I/O (QR png save, image
save, display) contribute only their log lines; drawing is recorded as a
command trace per face.  `none` propagates a non-terminating measurement. -/
def create_image (M : Metrics) (fuel : ℕ) (save margins : Bool) (s : Series)
    (logs0 : List String) : Option CreateImageResult :=
  (computeBoxes M fuel save s logs0).map (composeResult s save margins)

/-! ### Basic properties of the measurement pass -/

theorem measureLine_fst (M : Metrics) (sc : ℚ) (fw : ℤ) (spaceH : ℕ) (lsp : ℚ)
    (nL : ℕ) (acc : ℤ × ℤ) (p : ℕ × List Char) :
    (measureLine M sc fw spaceH lsp nL acc p).1 =
      acc.1 + ((M p.2 sc fw).2 : ℤ) +
        (if p.1 ≠ nL - 1 then ⌊(spaceH : ℚ) * lsp⌋ else 0) := rfl

theorem measureLine_snd (M : Metrics) (sc : ℚ) (fw : ℤ) (spaceH : ℕ) (lsp : ℚ)
    (nL : ℕ) (acc : ℤ × ℤ) (p : ℕ × List Char) :
    (measureLine M sc fw spaceH lsp nL acc p).2 =
      max acc.2 ((M p.2 sc fw).1 : ℤ) := by
  simp only [measureLine]
  rcases le_or_lt ((M p.2 sc fw).1 : ℤ) acc.2 with h | h
  · rw [if_neg (not_lt.mpr h), max_eq_left h]
  · rw [if_pos h, max_eq_right h.le]

/-- The line-level fold of the height/width accumulation, decomposed against
its start state: heights add, widths take a running maximum. -/
theorem innerFold_acc (M : Metrics) (sc : ℚ) (fw : ℤ) (spaceH : ℕ) (lsp : ℚ)
    (nL : ℕ) (L : List (ℕ × List Char)) :
    ∀ a b : ℤ, 0 ≤ b →
      L.foldl (measureLine M sc fw spaceH lsp nL) (a, b) =
        (a + (L.foldl (measureLine M sc fw spaceH lsp nL) (0, 0)).1,
         max b (L.foldl (measureLine M sc fw spaceH lsp nL) (0, 0)).2) := by
  induction L with
  | nil =>
    intro a b hb
    simp [max_eq_left hb]
  | cons p rest ih =>
    intro a b hb
    have hstep : ∀ a' b' : ℤ, measureLine M sc fw spaceH lsp nL (a', b') p =
        (a' + ((M p.2 sc fw).2 : ℤ) +
          (if p.1 ≠ nL - 1 then ⌊(spaceH : ℚ) * lsp⌋ else 0),
         max b' ((M p.2 sc fw).1 : ℤ)) := by
      intro a' b'
      rw [Prod.ext_iff]
      exact ⟨measureLine_fst .., measureLine_snd ..⟩
    simp only [List.foldl_cons, hstep]
    rw [ih _ _ (le_max_of_le_left hb), ih _ _ (le_max_of_le_left le_rfl)]
    simp only [Prod.mk.injEq]
    refine ⟨by ring, ?_⟩
    rw [max_eq_right (Int.natCast_nonneg _), max_assoc]

/-- The paragraph-level fold, decomposed against its start state. -/
theorem parasFold_acc (M : Metrics) (sc : ℚ) (fw : ℤ) (spaceH : ℕ)
    (psp lsp : ℚ) (L : List (ℕ × List (List Char))) :
    ∀ a b : ℤ, 0 ≤ b →
      L.foldl (paraStep M sc fw spaceH psp lsp) (a, b) =
        (a + (L.foldl (paraStep M sc fw spaceH psp lsp) (0, 0)).1,
         max b (L.foldl (paraStep M sc fw spaceH psp lsp) (0, 0)).2) := by
  induction L with
  | nil =>
    intro a b hb
    simp [max_eq_left hb]
  | cons q rest ih =>
    intro a b hb
    have hstep : ∀ a' b' : ℤ, 0 ≤ b' →
        paraStep M sc fw spaceH psp lsp (a', b') q =
          ((if q.1 ≠ 0 then a' + ⌊(spaceH : ℚ) * (psp * lsp)⌋ else a') +
            ((q.2.enum).foldl (measureLine M sc fw spaceH lsp q.2.length) (0, 0)).1,
           max b'
            ((q.2.enum).foldl (measureLine M sc fw spaceH lsp q.2.length) (0, 0)).2) := by
      intro a' b' hb'
      unfold paraStep
      by_cases hq : q.1 ≠ 0
      · rw [if_pos hq, if_pos hq, innerFold_acc _ _ _ _ _ _ _ _ _ hb']
      · rw [if_neg hq, if_neg hq, innerFold_acc _ _ _ _ _ _ _ _ _ hb']
    simp only [List.foldl_cons]
    rw [hstep _ _ hb, hstep _ _ le_rfl,
      ih _ _ (le_max_of_le_left hb), ih _ _ (le_max_of_le_left le_rfl)]
    simp only [Prod.mk.injEq]
    constructor
    · by_cases hq : q.1 ≠ 0
      · rw [if_pos hq, if_pos hq]
        ring
      · rw [if_neg hq, if_neg hq]
        ring
    · rw [← max_assoc, ← max_assoc, max_eq_left hb]

/-- `measureParas` decomposed against its start state. -/
theorem measureParas_acc (M : Metrics) (sc : ℚ) (fw : ℤ) (spaceH : ℕ)
    (psp lsp : ℚ) (paras : List (List (List Char))) (a b : ℤ) (hb : 0 ≤ b) :
    measureParas M sc fw spaceH psp lsp paras (a, b) =
      (a + (measureParas M sc fw spaceH psp lsp paras (0, 0)).1,
       max b (measureParas M sc fw spaceH psp lsp paras (0, 0)).2) :=
  parasFold_acc M sc fw spaceH psp lsp paras.enum a b hb

/-! ### Projections of one measurement pass -/

theorem measureOnce_font_scale (M : Metrics) (iw : ℤ) (tb : TextBox) :
    (measureOnce M iw tb).font_scale = tb.font_scale := rfl

theorem measureOnce_font_width (M : Metrics) (iw : ℤ) (tb : TextBox) :
    (measureOnce M iw tb).font_width = tb.font_width := rfl

theorem measureOnce_name (M : Metrics) (iw : ℤ) (tb : TextBox) :
    (measureOnce M iw tb).name = tb.name := rfl

theorem measureOnce_right_margin (M : Metrics) (iw : ℤ) (tb : TextBox) :
    (measureOnce M iw tb).right_margin = tb.right_margin := rfl

theorem measureOnce_paragraphs (M : Metrics) (iw : ℤ) (tb : TextBox) :
    (measureOnce M iw tb).paragraphs = boxParas M iw tb := rfl

theorem measureOnce_height (M : Metrics) (iw : ℤ) (tb : TextBox) :
    (measureOnce M iw tb).height =
      (measureParas M tb.font_scale tb.font_width
        (M [' '] tb.font_scale tb.font_width).2 tb.paragraph_spacing
        tb.line_spacing (boxParas M iw tb) (tb.height, tb.width)).1 := rfl

theorem measureOnce_width (M : Metrics) (iw : ℤ) (tb : TextBox) :
    (measureOnce M iw tb).width =
      (measureParas M tb.font_scale tb.font_width
        (M [' '] tb.font_scale tb.font_width).2 tb.paragraph_spacing
        tb.line_spacing (boxParas M iw tb) (tb.height, tb.width)).2 := rfl

theorem measureOnce_zero_height (M : Metrics) (iw : ℤ) (tb : TextBox) :
    (measureOnce M iw { tb with height := 0, width := 0 }).height =
      (measureParas M tb.font_scale tb.font_width
        (M [' '] tb.font_scale tb.font_width).2 tb.paragraph_spacing
        tb.line_spacing (boxParas M iw tb) (0, 0)).1 := rfl

theorem measureOnce_zero_width (M : Metrics) (iw : ℤ) (tb : TextBox) :
    (measureOnce M iw { tb with height := 0, width := 0 }).width =
      (measureParas M tb.font_scale tb.font_width
        (M [' '] tb.font_scale tb.font_width).2 tb.paragraph_spacing
        tb.line_spacing (boxParas M iw tb) (0, 0)).2 := rfl

/-- A measurement pass on a box whose height and width have not been reset
accumulates: the new height is the old height plus the freshly computed
content height, and the new width is the maximum of the old width and the
fresh maximal line width. -/
theorem measureOnce_accumulates (M : Metrics) (iw : ℤ) (tb : TextBox)
    (hw0 : 0 ≤ tb.width) :
    (measureOnce M iw tb).height =
      tb.height + (measureOnce M iw { tb with height := 0, width := 0 }).height ∧
    (measureOnce M iw tb).width =
      max tb.width (measureOnce M iw { tb with height := 0, width := 0 }).width := by
  have h := measureParas_acc M tb.font_scale tb.font_width
    (M [' '] tb.font_scale tb.font_width).2 tb.paragraph_spacing tb.line_spacing
    (boxParas M iw tb) tb.height tb.width hw0
  refine ⟨?_, ?_⟩
  · rw [measureOnce_height, measureOnce_zero_height, h]
  · rw [measureOnce_width, measureOnce_zero_width, h]

/-! ### Branch equations of `calculate_text_bb` -/

theorem calc_bb_zero (M : Metrics) (iw mx : ℤ) (mn : ℚ) (tb : TextBox)
    (logs : List String) :
    TextBox.calculate_text_bb M iw mx mn 0 tb logs = none := rfl

theorem calc_bb_at_min (M : Metrics) (iw mx : ℤ) (mn : ℚ) (fuel : ℕ)
    (tb : TextBox) (logs : List String) (h : tb.font_scale = mn) :
    TextBox.calculate_text_bb M iw mx mn (fuel + 1) tb logs =
      some (measureOnce M iw tb, logs ++ [minScaleMsg tb.name]) := by
  simp only [TextBox.calculate_text_bb, measureOnce_font_scale, measureOnce_name, h,
    if_pos]

theorem calc_bb_fits (M : Metrics) (iw mx : ℤ) (mn : ℚ) (fuel : ℕ)
    (tb : TextBox) (logs : List String) (h1 : tb.font_scale ≠ mn)
    (h2 : ¬ (measureOnce M iw tb).bounding_box.2 > mx) :
    TextBox.calculate_text_bb M iw mx mn (fuel + 1) tb logs =
      some (measureOnce M iw tb, logs) := by
  simp only [TextBox.calculate_text_bb, measureOnce_font_scale, measureOnce_name,
    if_neg h1, if_neg h2]

theorem calc_bb_down (M : Metrics) (iw mx : ℤ) (mn : ℚ) (fuel : ℕ)
    (tb : TextBox) (logs : List String) (h1 : tb.font_scale ≠ mn)
    (h2 : (measureOnce M iw tb).bounding_box.2 > mx) :
    TextBox.calculate_text_bb M iw mx mn (fuel + 1) tb logs =
      match TextBox.calculate_text_bb M iw mx mn fuel (downBox M iw tb) [] with
      | some (tb3, _) =>
        some (tb3, logs ++ [downscaleMsg tb.name (tb.font_scale - 1 / 2)])
      | none => none := by
  simp only [TextBox.calculate_text_bb, measureOnce_font_scale, measureOnce_name,
    if_neg h1, if_pos h2]

/-! ### The stroke-width invariant -/

/-- The invariant of the spec: the stroke width always equals
`ceil(font_scale * 3)`. -/
def strokeInv (tb : TextBox) : Prop := tb.font_width = ⌈tb.font_scale * 3⌉

theorem strokeInv_measureOnce (M : Metrics) (iw : ℤ) (tb : TextBox)
    (h : strokeInv tb) : strokeInv (measureOnce M iw tb) := h

theorem strokeInv_downBox (M : Metrics) (iw : ℤ) (tb : TextBox) :
    strokeInv (downBox M iw tb) := rfl

/-- `calculate_text_bb` re-establishes the stroke-width invariant at every
scale change, so it preserves it end to end. -/
theorem calc_bb_strokeInv (M : Metrics) (iw mx : ℤ) (mn : ℚ) :
    ∀ (fuel : ℕ) (tb : TextBox) (logs : List String) (tbr : TextBox)
      (logsr : List String), strokeInv tb →
      TextBox.calculate_text_bb M iw mx mn fuel tb logs = some (tbr, logsr) →
      strokeInv tbr := by
  intro fuel
  induction fuel with
  | zero =>
    intro tb logs tbr logsr _ h
    exact absurd h (by simp [calc_bb_zero])
  | succ n ih =>
    intro tb logs tbr logsr hinv h
    by_cases h1 : tb.font_scale = mn
    · rw [calc_bb_at_min M iw mx mn n tb logs h1] at h
      obtain ⟨h3, -⟩ := Prod.mk.injEq .. ▸ Option.some.inj h
      exact h3 ▸ strokeInv_measureOnce M iw tb hinv
    · by_cases h2 : (measureOnce M iw tb).bounding_box.2 > mx
      · rw [calc_bb_down M iw mx mn n tb logs h1 h2] at h
        cases hrec : TextBox.calculate_text_bb M iw mx mn n (downBox M iw tb) [] with
        | none => rw [hrec] at h; exact absurd h (by simp)
        | some r =>
          rw [hrec] at h
          obtain ⟨tb3, logs3⟩ := r
          obtain ⟨h3, -⟩ := Prod.mk.injEq .. ▸ Option.some.inj h
          exact h3 ▸ ih (downBox M iw tb) [] tb3 logs3 (strokeInv_downBox M iw tb) hrec
      · rw [calc_bb_fits M iw mx mn n tb logs h1 h2] at h
        obtain ⟨h3, -⟩ := Prod.mk.injEq .. ▸ Option.some.inj h
        exact h3 ▸ strokeInv_measureOnce M iw tb hinv

/-! ### C5: the points-rescale rule -/

/-- C5: whenever the measured points-value scale is strictly below the
points-marker ("Points: ") scale, the marker box is re-measured at the
value's scale with the value's stroke width, the value's left margin is
recomputed as the record's left margin plus the updated marker width, and
the value box is re-measured against that margin.  Both re-measurements use
the value's scale as their floor, so they terminate in one measurement pass
and keep that scale. -/
theorem c5_points_rescale (M : Metrics) (fuel : ℕ) (s : Series)
    (pre pts : TextBox) (logs : List String)
    (hlt : pts.font_scale < pre.font_scale) (hpb : pts.paragraph_break = false) :
    ∃ prer ptsr logsr,
      pointsRescale M (fuel + 1) s pre pts logs = some (prer, ptsr, logsr) ∧
      prer = measureOnce M canvasW
        { pre with font_scale := pts.font_scale, font_width := pts.font_width } ∧
      prer.font_scale = pts.font_scale ∧
      prer.font_width = pts.font_width ∧
      ptsr = measureOnce M canvasW
        { pts with left_margin := s.left_margin + prer.width } ∧
      ptsr.left_margin = s.left_margin + prer.width ∧
      ptsr.font_scale = pts.font_scale := by
  have e1 := calc_bb_at_min M canvasW 200 pts.font_scale fuel
    { pre with font_scale := pts.font_scale, font_width := pts.font_width }
    (logs ++
      [s.image_name ++ " points text is smaller than the points prefix, recalculating.\n"])
    rfl
  refine ⟨_, _,
    logs ++ [s.image_name ++ " points text is smaller than the points prefix, recalculating.\n"] ++
      [minScaleMsg pre.name] ++ [minScaleMsg pts.name],
    ?heq, rfl, rfl, rfl, rfl, ?hmargin, rfl⟩
  case heq =>
    unfold pointsRescale
    rw [if_pos hlt, e1]
    dsimp only
    rw [calc_bb_at_min M canvasW 600 pts.font_scale fuel
      { pts with
          left_margin := s.left_margin +
            (measureOnce M canvasW
              { pre with
                  font_scale := pts.font_scale,
                  font_width := pts.font_width }).width }
      _ rfl]
  case hmargin =>
    show bulletLeftMargin M _ = _
    simp [bulletLeftMargin, hpb]

/-! ### C6: a second measurement accumulates height and width -/

/-- C6: a caller-initiated second call to `calculate_text_bb` does not reset
the box's accumulated height and width.  When the call terminates in its
first measurement pass (in particular whenever it starts at its scale floor,
as both of `create_image`'s re-measurements do), the resulting height is the
height left by the previous call plus the freshly computed content height,
the resulting width is the maximum of the old width and the fresh maximal
line width, and the bounding box is built from these accumulated values;
height and width are reset to zero only in the auto-fit recursion step
(`downBox`). -/
theorem c6_second_measure_accumulates (M : Metrics) (iw mx : ℤ) (mn : ℚ)
    (fuel : ℕ) (tb : TextBox) (logs : List String) (hw0 : 0 ≤ tb.width)
    (hstop : tb.font_scale = mn ∨ ¬ (measureOnce M iw tb).bounding_box.2 > mx) :
    ∃ tbr logsr,
      TextBox.calculate_text_bb M iw mx mn (fuel + 1) tb logs = some (tbr, logsr) ∧
      tbr.height = tb.height +
        (measureOnce M iw { tb with height := 0, width := 0 }).height ∧
      tbr.width = max tb.width
        (measureOnce M iw { tb with height := 0, width := 0 }).width ∧
      tbr.bounding_box = (tbr.width + 100, tbr.height + 80) ∧
      (downBox M iw tb).height = 0 ∧ (downBox M iw tb).width = 0 := by
  obtain ⟨logsr, hkey⟩ :
      ∃ logsr, TextBox.calculate_text_bb M iw mx mn (fuel + 1) tb logs =
        some (measureOnce M iw tb, logsr) := by
    by_cases h1 : tb.font_scale = mn
    · exact ⟨_, calc_bb_at_min M iw mx mn fuel tb logs h1⟩
    · rcases hstop with h | h
      · exact absurd h h1
      · exact ⟨_, calc_bb_fits M iw mx mn fuel tb logs h1 h⟩
  obtain ⟨hh, hw⟩ := measureOnce_accumulates M iw tb hw0
  exact ⟨measureOnce M iw tb, logsr, hkey, hh, hw, rfl, rfl, rfl⟩

/-! ### C8: the stroke-width invariant -/

/-- C8: `font_width = ceil(font_scale * 3)` holds at every point where a
scale is assigned: at construction of each of `create_image`'s boxes (the QR
caption box inherits both fields from the measured summary box), across
`calculate_text_bb` (which re-establishes the invariant at every auto-fit
decrement), and across the points-rescale step (which copies the value box's
scale and stroke width together before re-measuring). -/
theorem c8_stroke_width_invariant (M : Metrics) (iw mx : ℤ) (mn : ℚ) (s : Series)
    (pw : ℤ) (sb : TextBox) :
    (strokeInv (mkSummaryBox s) ∧ strokeInv (mkPointsPreBox s) ∧
      strokeInv (mkPointsTextBox s pw) ∧ strokeInv (mkTitleBox s) ∧
      strokeInv (mkBackTextBox s) ∧ strokeInv (mkBackTitleBox s) ∧
      (strokeInv sb → strokeInv (mkQrTextBox s sb))) ∧
    (∀ (fuel : ℕ) (tb : TextBox) (logs : List String) tbr logsr, strokeInv tb →
      TextBox.calculate_text_bb M iw mx mn fuel tb logs = some (tbr, logsr) →
      strokeInv tbr) ∧
    (∀ (fuel : ℕ) (pre pts : TextBox) (logs : List String) prer ptsr logsr,
      strokeInv pre → strokeInv pts →
      pointsRescale M fuel s pre pts logs = some (prer, ptsr, logsr) →
      strokeInv prer ∧ strokeInv ptsr) := by
  refine ⟨⟨rfl, rfl, rfl, rfl, rfl, rfl, fun h => h⟩,
    fun fuel tb logs tbr logsr h he => calc_bb_strokeInv M iw mx mn fuel tb logs tbr logsr h he,
    fun fuel pre pts logs prer ptsr logsr hpre hpts he => ?_⟩
  unfold pointsRescale at he
  by_cases hlt : pts.font_scale < pre.font_scale
  · rw [if_pos hlt] at he
    cases hc1 : TextBox.calculate_text_bb M canvasW 200 pts.font_scale fuel
        { pre with font_scale := pts.font_scale, font_width := pts.font_width }
        (logs ++
          [s.image_name ++ " points text is smaller than the points prefix, recalculating.\n"]) with
    | none => rw [hc1] at he; exact absurd he (by simp)
    | some r1 =>
      rw [hc1] at he
      obtain ⟨pre2, logs2⟩ := r1
      dsimp only at he
      cases hc2 : TextBox.calculate_text_bb M canvasW 600 pts.font_scale fuel
          { pts with left_margin := s.left_margin + pre2.width } logs2 with
      | none => rw [hc2] at he; exact absurd he (by simp)
      | some r2 =>
        rw [hc2] at he
        obtain ⟨pts2, logs3⟩ := r2
        dsimp only at he
        have hpre2 : strokeInv pre2 :=
          calc_bb_strokeInv M canvasW 200 pts.font_scale fuel
            { pre with font_scale := pts.font_scale, font_width := pts.font_width }
            _ pre2 logs2 hpts hc1
        have hpts2 : strokeInv pts2 :=
          calc_bb_strokeInv M canvasW 600 pts.font_scale fuel
            { pts with left_margin := s.left_margin + pre2.width }
            logs2 pts2 logs3 hpts hc2
        simp only [Option.some.injEq, Prod.mk.injEq] at he
        obtain ⟨rfl, rfl, rfl⟩ := he
        exact ⟨hpre2, hpts2⟩
  · rw [if_neg hlt] at he
    simp only [Option.some.injEq, Prod.mk.injEq] at he
    obtain ⟨rfl, rfl, rfl⟩ := he
    exact ⟨hpre, hpts⟩

/-! ### C1: the auto-fit recursion bound and scale floor -/

/-- C1 (amended): when the initial scale exceeds the floor by a whole number
of 0.5 steps, `font_scale - min_font_scale = k * 0.5`, the auto-fit performs
at most `k = ceil((s0 - f)/0.5)` recursive re-measurements (so `k + 1`
measurement passes suffice), the terminal scale is `s0 - j * 0.5` for some
`j ≤ k` (the scale decreases in fixed 0.5 decrements), and the terminal
scale never drops below the floor.  (When `s0 - f` is not a multiple of 0.5
the equality guard of line 154 never fires and the floor can be crossed; see
the counterexample.) -/
theorem c1_scale_floor_amended (M : Metrics) (iw mx : ℤ) (mn : ℚ) (k : ℕ) :
    ∀ (tb : TextBox) (logs : List String), tb.font_scale - mn = k / 2 →
      ∃ tbr logsr,
        TextBox.calculate_text_bb M iw mx mn (k + 1) tb logs = some (tbr, logsr) ∧
        mn ≤ tbr.font_scale ∧
        ∃ j : ℕ, j ≤ k ∧ tbr.font_scale = tb.font_scale - j / 2 := by
  induction k with
  | zero =>
    intro tb logs hk
    have h0 : tb.font_scale = mn := by
      have h1 : tb.font_scale - mn = 0 := by rw [hk]; norm_num
      linarith
    refine ⟨_, _, calc_bb_at_min M iw mx mn 0 tb logs h0, ?_, 0, le_rfl, ?_⟩
    · rw [measureOnce_font_scale, h0]
    · rw [measureOnce_font_scale]
      norm_num
  | succ k ih =>
    intro tb logs hk
    have hpos : (0 : ℚ) < (((k : ℕ) + 1 : ℕ) : ℚ) / 2 := by positivity
    have hne : tb.font_scale ≠ mn := by
      intro he
      rw [he, sub_self] at hk
      rw [← hk] at hpos
      exact lt_irrefl 0 hpos
    by_cases hbb : (measureOnce M iw tb).bounding_box.2 > mx
    · have hdown : (downBox M iw tb).font_scale - mn = k / 2 := by
        show tb.font_scale - 1 / 2 - mn = (k : ℚ) / 2
        have : tb.font_scale - mn = ((k : ℚ) + 1) / 2 := by
          rw [hk]; push_cast; ring
        linarith
      obtain ⟨tbr, logsr, hrec, hge, j, hj, hjs⟩ := ih (downBox M iw tb) [] hdown
      refine ⟨tbr, logs ++ [downscaleMsg tb.name (tb.font_scale - 1 / 2)], ?_, hge,
        j + 1, by omega, ?_⟩
      · rw [calc_bb_down M iw mx mn (k + 1) tb logs hne hbb, hrec]
      · rw [hjs]
        show tb.font_scale - 1 / 2 - (j : ℚ) / 2 = tb.font_scale - ((j : ℕ) + 1 : ℕ) / 2
        push_cast
        ring
    · refine ⟨_, _, calc_bb_fits M iw mx mn (k + 1) tb logs hne hbb, ?_, 0, by omega, ?_⟩
      · rw [measureOnce_font_scale]
        have : tb.font_scale - mn = (((k : ℕ) + 1 : ℕ) : ℚ) / 2 := hk
        linarith
      · rw [measureOnce_font_scale]
        norm_num

/-- The metrics used by the C1 counterexample: every string is 1 pixel wide,
and 20 pixels tall at scale 0.6 but 1 pixel tall at any other scale. -/
def exM1 : Metrics := fun _ sc _ => (1, if sc = 3 / 5 then 20 else 1)

/-- The box used by the C1 counterexample: scale 0.6 against floor 0.3. -/
def exTb1 : TextBox :=
  { name := "c"
    text := ['a']
    font_scale := 3 / 5
    font_width := 2
    font_color := (0, 0, 0)
    left_margin := 0
    right_margin := 0
    line_spacing := 1 }

/-- C1 is false as stated: with scale floor 0.3 and initial scale 0.6 
(`s0 ≥ f`, but `s0 - f` is not a multiple of 0.5), the measurement of a
one-character box whose bounding box overflows at scale 0.6 and fits at 0.1
terminates at scale 0.1, strictly below the caller-supplied floor 0.3. -/
theorem c1_counterexample :
    ((TextBox.calculate_text_bb exM1 100 85 (3 / 10) 5 exTb1 []).map fun r =>
      r.1.font_scale) = some (1 / 10) ∧ ¬ ((3 / 10 : ℚ) ≤ 1 / 10) := by
  constructor
  · with_unfolding_all decide
  · norm_num

/-! ### C7: log entries of recursive re-measurements are lost -/

/-- The metrics used by the C7 input: heights 30/20/5 at scales 2/1.5/other. -/
def exM7 : Metrics := fun _ sc _ =>
  (1, if sc = 2 then 30 else if sc = 3 / 2 then 20 else 5)

/-- The box used by the C7 input: scale 2 against floor 1. -/
def exTb7 : TextBox :=
  { name := "c7"
    text := ['a']
    font_scale := 2
    font_width := 6
    font_color := (0, 0, 0)
    left_margin := 0
    right_margin := 0
    line_spacing := 1 }

/-- C7's failing input, evaluated: with max height 90, the box downscales
twice (2 → 1.5 → 1) and then stops at the floor, so three events occur (two
downgrades and one minimum-scale stop), but the log list returned to the
caller contains exactly one entry — the appends of the recursive calls at
line 167 go to the shared mutable default-argument list, which the caller
never receives. -/
theorem c7_lost_log_entries :
    ((TextBox.calculate_text_bb exM7 100 90 1 5 exTb7 []).map fun r =>
      (r.1.font_scale, r.2.length)) = some (1, 1) := by
  with_unfolding_all decide

/-! ### Concrete instances used by the witnesses -/

/-- Simple concrete metrics: width = character count, height = 1. -/
def wM : Metrics := fun s _ _ => (s.length, 1)

/-- A simple validated record. -/
def wSeries : Series :=
  { image_name := "w"
    title_text := ['T']
    points_text := ['1']
    summary_text := ['S']
    back_title_text := ['B']
    back_body_text := ['b']
    title_font_scale := 6
    points_font_scale := 5
    summary_font_scale := 7 / 2
    back_title_font_scale := 6
    back_body_font_scale := 7 / 2
    title_font_color := 255
    points_font_color := 220
    summary_font_color := 180
    back_title_font_color := 255
    back_body_font_color := 180
    title_line_spacing := 6 / 5
    points_line_spacing := 6 / 5
    summary_line_spacing := 6 / 5
    back_title_line_spacing := 6 / 5
    back_body_line_spacing := 11 / 10
    top_margin := 450
    bot_margin := 400
    left_margin := 400
    right_margin := 400
    qr_size := 600
    qr_offset := 75
    line_break_spacing := 35
    bullet_points := true
    bold_words := []
    paragraph_spacing := 3 / 2 }

/-- A one-character box at scale 2. -/
def wTb1 : TextBox :=
  { name := "w1"
    text := ['a']
    font_scale := 2
    font_width := 6
    font_color := (0, 0, 0)
    left_margin := 0
    right_margin := 0
    line_spacing := 1 }

/-- C1 witness: scale 2 against floor 1 is two 0.5 steps, so three passes
suffice and the terminal scale stays at or above 1. -/
theorem c1_witness :
    wTb1.font_scale - 1 = ((2 : ℕ) : ℚ) / 2 ∧
    (∃ tbr logsr,
      TextBox.calculate_text_bb wM 100 1000 1 (2 + 1) wTb1 [] = some (tbr, logsr) ∧
      1 ≤ tbr.font_scale ∧
      ∃ j : ℕ, j ≤ 2 ∧ tbr.font_scale = wTb1.font_scale - j / 2) :=
  ⟨by norm_num [wTb1], c1_scale_floor_amended wM 100 1000 1 2 wTb1 []
    (by norm_num [wTb1])⟩

/-- The points marker box of the C5/C6/C8 witnesses, at scale 5. -/
def wPre : TextBox :=
  { name := "Points Prefix"
    text := "Points: ".data
    font_scale := 5
    font_width := 15
    font_color := (220, 220, 220)
    left_margin := 400
    right_margin := 400
    line_spacing := 6 / 5 }

/-- The points value box of the C5/C6/C8 witnesses, at scale 3. -/
def wPts : TextBox :=
  { name := "Points Text"
    text := "1;2".data
    font_scale := 3
    font_width := 9
    font_color := (220, 220, 220)
    left_margin := 500
    right_margin := 400
    line_spacing := 6 / 5
    delim := ';'
    splitter := [','] }

/-- C5 witness at the concrete marker/value pair. -/
theorem c5_witness :
    wPts.font_scale < wPre.font_scale ∧ wPts.paragraph_break = false ∧
    (∃ prer ptsr logsr,
      pointsRescale wM (0 + 1) wSeries wPre wPts [] = some (prer, ptsr, logsr) ∧
      prer = measureOnce wM canvasW
        { wPre with font_scale := wPts.font_scale, font_width := wPts.font_width } ∧
      prer.font_scale = wPts.font_scale ∧
      prer.font_width = wPts.font_width ∧
      ptsr = measureOnce wM canvasW
        { wPts with left_margin := wSeries.left_margin + prer.width } ∧
      ptsr.left_margin = wSeries.left_margin + prer.width ∧
      ptsr.font_scale = wPts.font_scale) :=
  ⟨by norm_num [wPts, wPre], rfl,
    c5_points_rescale wM 0 wSeries wPre wPts [] (by norm_num [wPts, wPre]) rfl⟩

/-- C6 witness: re-measuring `wPre` at its own scale as the floor. -/
theorem c6_witness :
    (0 : ℤ) ≤ wPre.width ∧
    (wPre.font_scale = 5 ∨ ¬ (measureOnce wM 4488 wPre).bounding_box.2 > 200) ∧
    (∃ tbr logsr,
      TextBox.calculate_text_bb wM 4488 200 5 (0 + 1) wPre [] = some (tbr, logsr) ∧
      tbr.height = wPre.height +
        (measureOnce wM 4488 { wPre with height := 0, width := 0 }).height ∧
      tbr.width = max wPre.width
        (measureOnce wM 4488 { wPre with height := 0, width := 0 }).width ∧
      tbr.bounding_box = (tbr.width + 100, tbr.height + 80) ∧
      (downBox wM 4488 wPre).height = 0 ∧ (downBox wM 4488 wPre).width = 0) :=
  ⟨le_rfl, Or.inl rfl,
    c6_second_measure_accumulates wM 4488 200 5 0 wPre [] le_rfl (Or.inl rfl)⟩

/-- The result of measuring `wPre` once, for the C8 witness. -/
def wPreRun : TextBox × List String :=
  (TextBox.calculate_text_bb wM 4488 200 5 1 wPre []).get (by with_unfolding_all decide)

/-- C8 witness: the stroke-width invariant holds for the measured box of a
concrete run. -/
theorem c8_witness : strokeInv wPreRun.1 :=
  (c8_stroke_width_invariant wM 4488 200 5 wSeries 0 wPre).2.1 1 wPre [] wPreRun.1
    wPreRun.2
    (show wPre.font_width = ⌈wPre.font_scale * 3⌉ by with_unfolding_all decide)
    (Option.some_get
      (show (TextBox.calculate_text_bb wM 4488 200 5 1 wPre []).isSome = true by
        with_unfolding_all decide)).symm

/-! ### A line-structured specification of the wrap fold

The wrap loop builds a flat string with `'\n'` sentinels.  To reason about
the emitted lines we mirror the fold with a state that keeps the finished
lines as groups of processed words plus the group of the line being built,
and prove the two folds equivalent. -/

/-- Drop the leading character of a group's first word (the character the
break branch of the wrap loop removed: the prepended space, or the word's
own first character for the first word of a paragraph). -/
def chopHead : List (List Char) → List (List Char)
  | [] => []
  | w :: ws => w.tail :: ws

/-- The lines denoted by a list of word groups: the first group joins as-is
(its first word was never broken onto a new line), every later group joins
with its first word chopped. -/
def linesSpec : List (List (List Char)) → List (List Char)
  | [] => []
  | g :: gs => g.flatten :: gs.map fun g2 => (chopHead g2).flatten

/-- The state of the line-structured wrap fold: finished groups, the group
of the current line, and the cursor. -/
structure WrapSt where
  done : List (List (List Char))
  cur : List (List Char)
  x : ℤ
  deriving DecidableEq

/-- All of the state's groups, the current line last. -/
def specGroups (st : WrapSt) : List (List (List Char)) := st.done ++ [st.cur]

/-- The line-structured mirror of `wrapStep`. -/
def specStep (M : Metrics) (sc : ℚ) (fw limit lm : ℤ) (st : WrapSt)
    (w : List Char) : WrapSt :=
  if st.x + ((M w sc fw).1 : ℤ) ≤ limit then
    { st with cur := st.cur ++ [w], x := st.x + ((M w sc fw).1 : ℤ) }
  else
    { done := st.done ++ [st.cur], cur := [w], x := lm + ((M w.tail sc fw).1 : ℤ) }

theorem linesSpec_ne_nil (gs : List (List (List Char))) (h : gs ≠ []) :
    linesSpec gs ≠ [] := by
  cases gs with
  | nil => exact absurd rfl h
  | cons g gs => simp [linesSpec]

theorem linesSpec_append (gs : List (List (List Char))) (g : List (List Char))
    (h : gs ≠ []) :
    linesSpec (gs ++ [g]) = linesSpec gs ++ [(chopHead g).flatten] := by
  cases gs with
  | nil => exact absurd rfl h
  | cons g0 gs => simp [linesSpec]

theorem chopHead_append (cur : List (List Char)) (w : List Char) (h : cur ≠ []) :
    (chopHead (cur ++ [w])).flatten = (chopHead cur).flatten ++ w := by
  cases cur with
  | nil => exact absurd rfl h
  | cons c cs => simp [chopHead]

theorem intercalate_concat (s a : List Char) :
    ∀ ls : List (List Char), ls ≠ [] →
      List.intercalate s (ls ++ [a]) = List.intercalate s ls ++ s ++ a := by
  intro ls
  induction ls with
  | nil => intro h; exact absurd rfl h
  | cons b tl ih =>
    intro _
    cases tl with
    | nil => simp [List.intercalate]
    | cons c tl2 =>
      have h2 := ih (by simp)
      simp only [List.intercalate, List.cons_append, List.intersperse_cons_cons,
        List.flatten_cons] at h2 ⊢
      rw [h2]
      simp [List.append_assoc]

/-- One step of the two folds corresponds: the flat text of the stepped
line-structured state extends the flat text of the state. -/
theorem step_correspond (M : Metrics) (sc : ℚ) (fw limit lm : ℤ) (st : WrapSt)
    (w : List Char) (hne : st.done = [] ∨ st.cur ≠ []) :
    wrapStep M sc fw limit lm
        (List.intercalate ['\n'] (linesSpec (specGroups st)), st.x) w =
      (List.intercalate ['\n']
        (linesSpec (specGroups (specStep M sc fw limit lm st w))),
       (specStep M sc fw limit lm st w).x) := by
  obtain ⟨done, cur, x⟩ := st
  by_cases hfit : x + ((M w sc fw).1 : ℤ) ≤ limit
  · simp only [wrapStep, specStep, if_pos hfit]
    refine Prod.ext ?_ rfl
    show List.intercalate ['\n'] (linesSpec (done ++ [cur])) ++ w =
      List.intercalate ['\n'] (linesSpec (done ++ [cur ++ [w]]))
    cases done with
    | nil =>
      simp [specGroups, linesSpec, List.intercalate]
    | cons g0 ds =>
      have hcur : cur ≠ [] := by
        rcases hne with h | h
        · exact absurd h (by simp)
        · exact h
      rw [linesSpec_append (g0 :: ds) cur (by simp),
        linesSpec_append (g0 :: ds) (cur ++ [w]) (by simp),
        chopHead_append cur w hcur,
        intercalate_concat _ _ _ (linesSpec_ne_nil _ (by simp)),
        intercalate_concat _ _ _ (linesSpec_ne_nil _ (by simp))]
      simp [List.append_assoc]
  · simp only [wrapStep, specStep, if_neg hfit]
    refine Prod.ext ?_ rfl
    show List.intercalate ['\n'] (linesSpec (done ++ [cur])) ++ '\n' :: w.tail =
      List.intercalate ['\n'] (linesSpec ((done ++ [cur]) ++ [[w]]))
    rw [linesSpec_append (done ++ [cur]) [w] (by simp),
      intercalate_concat _ _ _ (linesSpec_ne_nil _ (by simp))]
    simp [chopHead]

/-- The two folds correspond along any word list, and the line-structured
state keeps its "current line nonempty unless no line is finished"
invariant. -/
theorem fold_correspond (M : Metrics) (sc : ℚ) (fw limit lm : ℤ) :
    ∀ (ws : List (List Char)) (st : WrapSt), (st.done = [] ∨ st.cur ≠ []) →
      ws.foldl (wrapStep M sc fw limit lm)
          (List.intercalate ['\n'] (linesSpec (specGroups st)), st.x) =
        (List.intercalate ['\n']
          (linesSpec (specGroups (ws.foldl (specStep M sc fw limit lm) st))),
         (ws.foldl (specStep M sc fw limit lm) st).x) ∧
      ((ws.foldl (specStep M sc fw limit lm) st).done = [] ∨
        (ws.foldl (specStep M sc fw limit lm) st).cur ≠ []) := by
  intro ws
  induction ws with
  | nil => intro st h; exact ⟨rfl, h⟩
  | cons w ws ih =>
    intro st h
    have hstep : (specStep M sc fw limit lm st w).done = [] ∨
        (specStep M sc fw limit lm st w).cur ≠ [] := by
      obtain ⟨done, cur, x⟩ := st
      by_cases hfit : x + ((M w sc fw).1 : ℤ) ≤ limit
      · simp only [specStep, if_pos hfit]
        right
        simp
      · simp only [specStep, if_neg hfit]
        right
        simp
    have := ih (specStep M sc fw limit lm st w) hstep
    simp only [List.foldl_cons, step_correspond M sc fw limit lm st w h]
    exact this

/-- The groups of the folded state partition the processed words, in order. -/
theorem fold_partition (M : Metrics) (sc : ℚ) (fw limit lm : ℤ) :
    ∀ (ws : List (List Char)) (st : WrapSt),
      (specGroups (ws.foldl (specStep M sc fw limit lm) st)).flatten =
        (specGroups st).flatten ++ ws := by
  intro ws
  induction ws with
  | nil => intro st; simp
  | cons w ws ih =>
    intro st
    rw [List.foldl_cons, ih]
    obtain ⟨done, cur, x⟩ := st
    by_cases hfit : x + ((M w sc fw).1 : ℤ) ≤ limit
    · simp [specStep, if_pos hfit, specGroups, List.append_assoc]
    · simp [specStep, if_neg hfit, specGroups, List.append_assoc]

/-- Finished groups are stable: folding only extends the current group and
appends further groups after it. -/
theorem fold_stable (M : Metrics) (sc : ℚ) (fw limit lm : ℤ) :
    ∀ (ws : List (List Char)) (st : WrapSt),
      ∃ e gs2, specGroups (ws.foldl (specStep M sc fw limit lm) st) =
        st.done ++ (st.cur ++ e) :: gs2 := by
  intro ws
  induction ws with
  | nil =>
    intro st
    exact ⟨[], [], by simp [specGroups]⟩
  | cons w ws ih =>
    intro st
    obtain ⟨done, cur, x⟩ := st
    by_cases hfit : x + ((M w sc fw).1 : ℤ) ≤ limit
    · obtain ⟨e, gs2, he⟩ := ih (specStep M sc fw limit lm ⟨done, cur, x⟩ w)
      refine ⟨[w] ++ e, gs2, ?_⟩
      rw [List.foldl_cons, he]
      simp [specStep, if_pos hfit, List.append_assoc]
    · obtain ⟨e, gs2, he⟩ := ih (specStep M sc fw limit lm ⟨done, cur, x⟩ w)
      refine ⟨[], ([w] ++ e) :: gs2, ?_⟩
      rw [List.foldl_cons, he]
      simp [specStep, if_neg hfit]

/-- Folding from a state whose groups are all nonempty keeps them all
nonempty. -/
theorem fold_groups_ne_nil (M : Metrics) (sc : ℚ) (fw limit lm : ℤ) :
    ∀ (ws : List (List Char)) (st : WrapSt),
      (∀ g ∈ specGroups st, g ≠ []) →
      ∀ g ∈ specGroups (ws.foldl (specStep M sc fw limit lm) st), g ≠ [] := by
  intro ws
  induction ws with
  | nil => intro st h; exact h
  | cons w ws ih =>
    intro st h
    rw [List.foldl_cons]
    refine ih _ ?_
    obtain ⟨done, cur, x⟩ := st
    have hdone : ∀ g ∈ done, g ≠ [] := fun g hg => h g (by simp [specGroups, hg])
    have hcur : cur ≠ [] := h cur (by simp [specGroups])
    by_cases hfit : x + ((M w sc fw).1 : ℤ) ≤ limit
    · intro g hg
      simp only [specStep, if_pos hfit, specGroups, List.mem_append,
        List.mem_singleton] at hg
      rcases hg with hg | hg
      · exact hdone g hg
      · subst hg
        simp
    · intro g hg
      simp only [specStep, if_neg hfit, specGroups, List.mem_append,
        List.mem_singleton] at hg
      rcases hg with (hg | hg) | hg
      · exact hdone g hg
      · subst hg
        exact hcur
      · subst hg
        simp

/-! ### Character membership through splitting and processing -/

theorem mem_enumFrom_snd {α : Type} :
    ∀ (l : List α) (n : ℕ) (p : ℕ × α), p ∈ l.enumFrom n → p.2 ∈ l := by
  intro l
  induction l with
  | nil => intro n p h; simp at h
  | cons a as ih =>
    intro n p h
    rw [List.enumFrom_cons] at h
    rcases List.mem_cons.mp h with h | h
    · subst h
      exact List.mem_cons_self _ _
    · exact List.mem_cons_of_mem _ (ih (n + 1) p h)

theorem mem_enum_snd {α : Type} (l : List α) (p : ℕ × α) (h : p ∈ l.enum) :
    p.2 ∈ l :=
  mem_enumFrom_snd l 0 p h

/-- Every chunk of a split is made of characters of the original string. -/
theorem mem_splitOn_subset (d : Char) :
    ∀ (xs : List Char), ∀ piece ∈ xs.splitOn d, ∀ c ∈ piece, c ∈ xs := by
  intro xs
  induction xs with
  | nil =>
    intro piece hp c hc
    simp only [List.splitOn_nil, List.mem_singleton] at hp
    subst hp
    simp at hc
  | cons a as ih =>
    intro piece hp c hc
    simp only [List.splitOn, List.splitOnP_cons] at hp
    by_cases had : a = d
    · rw [if_pos (by simp [had])] at hp
      rcases List.mem_cons.mp hp with h | h
      · subst h
        simp at hc
      · exact List.mem_cons_of_mem _ (ih piece h c hc)
    · rw [if_neg (by simp [had])] at hp
      cases hsp : List.splitOnP (fun b => b == d) as with
      | nil => exact absurd hsp (List.splitOnP_ne_nil _ as)
      | cons h0 t0 =>
        rw [hsp] at hp
        rcases List.mem_cons.mp hp with h | h
        · subst h
          rcases List.mem_cons.mp hc with h | h
          · subst h
            exact List.mem_cons_self _ _
          · refine List.mem_cons_of_mem _ (ih h0 ?_ c h)
            rw [List.splitOn, hsp]
            exact List.mem_cons_self _ _
        · refine List.mem_cons_of_mem _ (ih piece ?_ c hc)
          rw [List.splitOn, hsp]
          exact List.mem_cons_of_mem _ h
  
/-- No chunk of a split contains the separator. -/
theorem splitOn_sep_not_mem (d : Char) :
    ∀ (xs : List Char), ∀ piece ∈ xs.splitOn d, d ∉ piece := by
  intro xs
  induction xs with
  | nil =>
    intro piece hp
    simp only [List.splitOn_nil, List.mem_singleton] at hp
    subst hp
    simp
  | cons a as ih =>
    intro piece hp
    simp only [List.splitOn, List.splitOnP_cons] at hp
    by_cases had : a = d
    · rw [if_pos (by simp [had])] at hp
      rcases List.mem_cons.mp hp with h | h
      · subst h
        simp
      · exact ih piece h
    · rw [if_neg (by simp [had])] at hp
      cases hsp : List.splitOnP (fun b => b == d) as with
      | nil => exact absurd hsp (List.splitOnP_ne_nil _ as)
      | cons h0 t0 =>
        rw [hsp] at hp
        rcases List.mem_cons.mp hp with h | h
        · subst h
          intro hd
          rcases List.mem_cons.mp hd with h | h
          · exact had h.symm
          · refine ih h0 ?_ h
            rw [List.splitOn, hsp]
            exact List.mem_cons_self _ _
        · refine ih piece ?_
          rw [List.splitOn, hsp]
          exact List.mem_cons_of_mem _ h

/-- Characters of a processed word come from its chunk, the splitter, or are
a space. -/
theorem processWord_chars (delim : Char) (splitter : List Char) (n ix : ℕ)
    (w : List Char) (c : Char) (hc : c ∈ processWord delim splitter n ix w) :
    c = ' ' ∨ c ∈ w ∨ c ∈ splitter := by
  unfold processWord at hc
  have base : ∀ c2 ∈ (if ix ≠ 0 then ' ' :: pyLstrip w else pyLstrip w),
      c2 = ' ' ∨ c2 ∈ w := by
    intro c2 hc2
    by_cases hix : ix ≠ 0
    · rw [if_pos hix] at hc2
      rcases List.mem_cons.mp hc2 with h | h
      · exact Or.inl h
      · exact Or.inr (List.dropWhile_subset _ h)
    · rw [if_neg hix] at hc2
      exact Or.inr (List.dropWhile_subset _ hc2)
  by_cases hsp : ix ≠ n - 1 ∧ delim ≠ ' '
  · rw [if_pos hsp] at hc
    rcases List.mem_append.mp hc with h | h
    · rcases base c h with h | h
      · exact Or.inl h
      · exact Or.inr (Or.inl h)
    · exact Or.inr (Or.inr h)
  · rw [if_neg hsp] at hc
    rcases base c hc with h | h
    · exact Or.inl h
    · exact Or.inr (Or.inl h)

/-- Processed words of a newline-free paragraph with a newline-free joiner
are newline-free. -/
theorem processedWords_no_newline (delim : Char) (splitter : List Char)
    (raw : List Char) (hnl : ('\n' : Char) ∉ raw) (hns : ('\n' : Char) ∉ splitter) :
    ∀ pw ∈ processedWords delim splitter (raw.splitOn delim), ('\n' : Char) ∉ pw := by
  intro pw hpw hmem
  obtain ⟨p, hp, rfl⟩ := List.mem_map.mp hpw
  rcases processWord_chars delim splitter _ p.1 p.2 '\n' hmem with h | h | h
  · exact absurd h (by decide)
  · exact hnl (mem_splitOn_subset delim raw p.2 (mem_enum_snd _ p hp) '\n' h)
  · exact hns h

/-- Lines denoted by groups of newline-free words are newline-free. -/
theorem linesSpec_no_newline (gs : List (List (List Char)))
    (h : ∀ w ∈ gs.flatten, ('\n' : Char) ∉ w) :
    ∀ line ∈ linesSpec gs, ('\n' : Char) ∉ line := by
  cases gs with
  | nil => intro line hl; simp [linesSpec] at hl
  | cons g0 gs =>
    intro line hl
    simp only [linesSpec, List.mem_cons] at hl
    rcases hl with hl | hl
    · subst hl
      intro hmem
      obtain ⟨w, hw, hcw⟩ := List.mem_flatten.mp hmem
      exact h w (by simp [hw]) hcw
    · obtain ⟨g, hg, rfl⟩ := List.mem_map.mp hl
      intro hmem
      obtain ⟨w, hw, hcw⟩ := List.mem_flatten.mp hmem
      cases g with
      | nil => simp [chopHead] at hw
      | cons gw gws =>
        simp only [chopHead, List.mem_cons] at hw
        rcases hw with hw | hw
        · subst hw
          exact h gw (by simp; exact Or.inr ⟨gw :: gws, hg, by simp⟩)
            (List.mem_of_mem_tail hcw)
        · exact h w (by simp; exact Or.inr ⟨gw :: gws, hg, by simp [hw]⟩) hcw

/-- The flat wrapped text is the intercalation of the specified lines, so
splitting it on `'\n'` recovers exactly those lines. -/
theorem wrapText_lines (M : Metrics) (sc : ℚ) (fw limit lm : ℤ) (delim : Char)
    (splitter raw : List Char) (hnl : ('\n' : Char) ∉ raw)
    (hns : ('\n' : Char) ∉ splitter) :
    (wrapText M sc fw limit lm delim splitter raw).1.splitOn '\n' =
      linesSpec (specGroups
        ((processedWords delim splitter (raw.splitOn delim)).foldl
          (specStep M sc fw limit lm) ⟨[], [], lm⟩)) := by
  have h0 : (List.intercalate ['\n']
      (linesSpec (specGroups (⟨[], [], lm⟩ : WrapSt))) : List Char) = [] := by
    simp [specGroups, linesSpec, List.intercalate]
  have hcorr := (fold_correspond M sc fw limit lm
    (processedWords delim splitter (raw.splitOn delim)) ⟨[], [], lm⟩ (Or.inl rfl)).1
  rw [h0] at hcorr
  have hfull : (wrapText M sc fw limit lm delim splitter raw).1 =
      List.intercalate ['\n'] (linesSpec (specGroups
        ((processedWords delim splitter (raw.splitOn delim)).foldl
          (specStep M sc fw limit lm) ⟨[], [], lm⟩))) := by
    unfold wrapText
    rw [hcorr]
  rw [hfull]
  refine List.splitOn_intercalate _ '\n' ?_ (linesSpec_ne_nil _ (by simp [specGroups]))
  apply linesSpec_no_newline
  intro w hw
  have hpart := fold_partition M sc fw limit lm
    (processedWords delim splitter (raw.splitOn delim)) ⟨[], [], lm⟩
  rw [hpart] at hw
  simp only [specGroups, List.nil_append, List.flatten_cons, List.flatten_nil,
    List.nil_append] at hw
  exact processedWords_no_newline delim splitter raw hnl hns w hw

theorem processedWords_ne_nil (delim : Char) (splitter raw : List Char) :
    processedWords delim splitter (raw.splitOn delim) ≠ [] := by
  have h1 : raw.splitOn delim ≠ [] := List.splitOnP_ne_nil _ raw
  cases hsp : raw.splitOn delim with
  | nil => exact absurd hsp h1
  | cons a l => simp [processedWords, hsp, List.enum_cons]

/-! ### C9: an overflowing first word -/

/-- C9: if the first (processed) word of a paragraph is by itself too wide
— the left margin plus its measured width exceeds the limit
`canvas_width - right_margin` — then the wrap emits an empty first line, and
the second line starts with that word stripped of its first character. -/
theorem c9_first_word_overflow (M : Metrics) (sc : ℚ) (fw limit lm : ℤ)
    (delim : Char) (splitter raw : List Char) (hnl : ('\n' : Char) ∉ raw)
    (hns : ('\n' : Char) ∉ splitter)
    (hover : limit < lm +
      ((M ((processedWords delim splitter (raw.splitOn delim)).headI) sc fw).1 : ℤ)) :
    ∃ rest more,
      (wrapText M sc fw limit lm delim splitter raw).1.splitOn '\n' =
        [] :: ((processedWords delim splitter (raw.splitOn delim)).headI.tail ++ rest)
          :: more := by
  cases hcons : processedWords delim splitter (raw.splitOn delim) with
  | nil => exact absurd hcons (processedWords_ne_nil delim splitter raw)
  | cons p0 pws =>
    rw [hcons] at hover
    simp only [List.headI] at hover ⊢
    have hstep1 : specStep M sc fw limit lm ⟨[], [], lm⟩ p0 =
        ⟨[[]], [p0], lm + ((M p0.tail sc fw).1 : ℤ)⟩ := by
      simp only [specStep, if_neg (not_le.mpr hover)]
      rfl
    obtain ⟨e, gs2, hst⟩ := fold_stable M sc fw limit lm pws
      ⟨[[]], [p0], lm + ((M p0.tail sc fw).1 : ℤ)⟩
    refine ⟨e.flatten, (gs2.map fun g => (chopHead g).flatten), ?_⟩
    rw [wrapText_lines M sc fw limit lm delim splitter raw hnl hns, hcons,
      List.foldl_cons, hstep1, hst]
    simp [linesSpec, chopHead]

/-! ### The width invariant of the wrap -/

theorem intercalate_cons_cons (s a b : List Char) (l : List (List Char)) :
    List.intercalate s (a :: b :: l) = a ++ s ++ List.intercalate s (b :: l) := by
  simp [List.intercalate, List.intersperse_cons_cons, List.append_assoc]

/-- Words joined with leading spaces flatten to a space intercalation. -/
theorem flatten_spaced (ss : List (List Char)) :
    ∀ s0 : List Char,
      List.intercalate [' '] (s0 :: ss) = s0 ++ (ss.map fun s => ' ' :: s).flatten := by
  induction ss with
  | nil => intro s0; simp [List.intercalate]
  | cons t ts ih =>
    intro s0
    rw [intercalate_cons_cons, ih t]
    simp [List.append_assoc]

/-- Rejoining chopped lines with single spaces restores the flattened spaced
words: each inserted separator space replaces exactly the space chopped from
the following group's first word. -/
theorem intercalate_chopped (gs : List (List (List Char))) :
    ∀ A : List Char, (∀ g ∈ gs, ∃ s t, g = (' ' :: s) :: t) →
      List.intercalate [' '] (A :: gs.map fun g => (chopHead g).flatten) =
        A ++ gs.flatten.flatten := by
  induction gs with
  | nil => intro A _; simp [List.intercalate]
  | cons g rest ih =>
    intro A hsp
    obtain ⟨s, t, rfl⟩ := hsp _ (List.mem_cons_self _ _)
    rw [List.map_cons, intercalate_cons_cons,
      ih ((chopHead ((' ' :: s) :: t)).flatten)
        (fun g2 hg2 => hsp g2 (List.mem_cons_of_mem _ hg2))]
    simp [chopHead, List.append_assoc]

/-- With the space delimiter, the processed words are the `lstrip`ped chunks,
every one but the first with a leading space (the joiner branch is dead). -/
theorem processedWords_space_aux (splitter : List Char) (N : ℕ) :
    ∀ (rest : List (List Char)) (n : ℕ), n ≠ 0 →
      (List.enumFrom n rest).map
          (fun p => processWord ' ' splitter N p.1 p.2) =
        rest.map fun w => ' ' :: pyLstrip w := by
  intro rest
  induction rest with
  | nil => intro n _; simp
  | cons a t ih =>
    intro n hn
    rw [List.enumFrom_cons, List.map_cons, List.map_cons, ih (n + 1) (by omega)]
    congr 1
    simp [processWord, hn]

theorem processedWords_space (splitter : List Char) (w0 : List Char)
    (rest : List (List Char)) :
    processedWords ' ' splitter (w0 :: rest) =
      pyLstrip w0 :: rest.map fun w => ' ' :: pyLstrip w := by
  unfold processedWords
  rw [List.enum_cons, List.map_cons,
    processedWords_space_aux splitter (w0 :: rest).length rest 1 (by omega)]
  congr 1
  simp [processWord]

/-! ### C3: the wrap round-trip -/

/-- C3 (amended): for a space-delimited paragraph whose words carry no
leading whitespace and no newline characters, and whose first word fits the
available width, rejoining the wrapped lines with single spaces and
re-splitting on spaces reconstructs the paragraph's word sequence exactly.
(When the first word overflows, its first character is dropped — see the
counterexample and C9 — and the round-trip fails.) -/
theorem c3_roundtrip_amended (M : Metrics) (sc : ℚ) (fw limit lm : ℤ)
    (splitter raw : List Char) (hnl : ('\n' : Char) ∉ raw)
    (hns : ('\n' : Char) ∉ splitter)
    (hstrip : ∀ chunk ∈ raw.splitOn ' ', pyLstrip chunk = chunk)
    (hfirst : lm + ((M ((raw.splitOn ' ').headI) sc fw).1 : ℤ) ≤ limit) :
    (List.intercalate [' ']
      ((wrapText M sc fw limit lm ' ' splitter raw).1.splitOn '\n')).splitOn ' ' =
      raw.splitOn ' ' := by
  have hlines := wrapText_lines M sc fw limit lm ' ' splitter raw hnl hns
  cases hws : raw.splitOn ' ' with
  | nil => exact absurd hws (List.splitOnP_ne_nil _ raw)
  | cons w0 rest =>
    rw [hws] at hlines hstrip hfirst
    simp only [List.headI] at hfirst
    have hw0 : pyLstrip w0 = w0 := hstrip w0 (List.mem_cons_self _ _)
    have hrest : (rest.map fun w => ' ' :: pyLstrip w) = rest.map fun w => ' ' :: w := by
      refine List.map_congr_left ?_
      intro w hw
      rw [hstrip w (List.mem_cons_of_mem _ hw)]
    have hproc : processedWords ' ' splitter (w0 :: rest) =
        w0 :: rest.map fun w => ' ' :: w := by
      rw [processedWords_space, hw0, hrest]
    rw [hproc] at hlines
    -- the first word fits, so the first fold step extends the first line
    have hstep1 : specStep M sc fw limit lm ⟨[], [], lm⟩ w0 =
        ⟨[], [w0], lm + ((M w0 sc fw).1 : ℤ)⟩ := by
      simp only [specStep, if_pos hfirst]
      rfl
    rw [List.foldl_cons, hstep1] at hlines
    -- facts about the final groups
    have hne : ∀ g ∈ specGroups ((rest.map fun w => ' ' :: w).foldl
        (specStep M sc fw limit lm) ⟨[], [w0], lm + ((M w0 sc fw).1 : ℤ)⟩), g ≠ [] := by
      refine fold_groups_ne_nil M sc fw limit lm _ _ ?_
      intro g hg
      simp only [specGroups, List.nil_append, List.mem_singleton] at hg
      subst hg
      simp
    have hflat : (specGroups ((rest.map fun w => ' ' :: w).foldl
        (specStep M sc fw limit lm) ⟨[], [w0], lm + ((M w0 sc fw).1 : ℤ)⟩)).flatten =
        w0 :: rest.map fun w => ' ' :: w := by
      have hp := fold_partition M sc fw limit lm (rest.map fun w => ' ' :: w)
        ⟨[], [w0], lm + ((M w0 sc fw).1 : ℤ)⟩
      rw [hp]
      simp [specGroups]
    cases hgs : specGroups ((rest.map fun w => ' ' :: w).foldl
        (specStep M sc fw limit lm) ⟨[], [w0], lm + ((M w0 sc fw).1 : ℤ)⟩) with
    | nil => exact absurd hgs (by simp [specGroups])
    | cons g0 gs2 =>
      rw [hgs] at hlines hflat hne
      cases hg0 : g0 with
      | nil => exact absurd hg0 (hne g0 (List.mem_cons_self _ _))
      | cons h0 t0 =>
        rw [hg0] at hflat hlines
        simp only [List.flatten_cons, List.cons_append] at hflat
        injection hflat with hh0 htail
        have hspaced : ∀ e ∈ t0 ++ gs2.flatten, ∃ s, e = ' ' :: s := by
          intro e he
          rw [htail] at he
          obtain ⟨w, hw, hfe⟩ := List.mem_map.mp he
          exact ⟨w, hfe.symm⟩
        have hgs2 : ∀ g ∈ gs2, ∃ s t, g = (' ' :: s) :: t := by
          intro g hg
          have hgne : g ≠ [] := hne g (by simp [hg])
          cases hgc : g with
          | nil => exact absurd hgc hgne
          | cons e t =>
            obtain ⟨s, hs⟩ := hspaced e (by
              refine List.mem_append.mpr (Or.inr ?_)
              refine List.mem_flatten_of_mem hg ?_
              rw [hgc]
              exact List.mem_cons_self _ _)
            exact ⟨s, t, by rw [hs]⟩
        rw [hlines]
        have hJ : List.intercalate [' '] (linesSpec ((h0 :: t0) :: gs2)) =
            h0 ++ (t0 ++ gs2.flatten).flatten := by
          show List.intercalate [' ']
            (((h0 :: t0).flatten) :: gs2.map fun g => (chopHead g).flatten) = _
          rw [intercalate_chopped gs2 ((h0 :: t0).flatten) hgs2]
          simp [List.append_assoc]
        rw [hJ, htail, hh0]
        have hL5 := flatten_spaced rest w0
        rw [← hL5]
        refine List.splitOn_intercalate _ ' ' ?_ (by simp)
        intro l hl
        have hsep := splitOn_sep_not_mem ' ' raw
        rw [hws] at hsep
        exact hsep l hl

/-- Width-10-per-character metrics used by the wrap examples. -/
def exM3 : Metrics := fun s _ _ => (10 * s.length, 5)

/-- C3 is false as stated: with a width limit of 5 pixels and the
two-character word "ab" (measured width 20), the wrap drops the word's first
character (cf. C9), so rejoining the wrapped lines yields the word "b"
instead of "ab". -/
theorem c3_counterexample :
    ¬ ((List.intercalate [' ']
      ((wrapText exM3 1 1 5 0 ' ' [] "ab".data).1.splitOn '\n')).splitOn ' ' =
      "ab".data.splitOn ' ') := by
  with_unfolding_all decide

/-- C3 witness: the spec's own scenario text round-trips. -/
theorem c3_witness :
    ('\n' ∉ "Hello world this is a test".data) ∧
    (∀ chunk ∈ "Hello world this is a test".data.splitOn ' ',
      pyLstrip chunk = chunk) ∧
    ((0 : ℤ) + ((exM3 (("Hello world this is a test".data.splitOn ' ').headI) 1 1).1 : ℤ) ≤ 170) ∧
    (List.intercalate [' ']
      ((wrapText exM3 1 1 170 0 ' ' [] "Hello world this is a test".data).1.splitOn '\n')).splitOn ' ' =
      "Hello world this is a test".data.splitOn ' ' :=
  ⟨by decide, by decide, by with_unfolding_all decide,
    c3_roundtrip_amended exM3 1 1 170 0 [] "Hello world this is a test".data
      (by decide) (by decide) (by decide) (by with_unfolding_all decide)⟩

/-- C9 witness: a first word wider than the limit produces an empty first
line and loses its first character. -/
theorem c9_witness :
    ((5 : ℤ) < 0 + ((exM3 ((processedWords ' ' [] ("ab".data.splitOn ' ')).headI) 1 1).1 : ℤ)) ∧
    ∃ rest more,
      (wrapText exM3 1 1 5 0 ' ' [] "ab".data).1.splitOn '\n' =
        [] :: ((processedWords ' ' [] ("ab".data.splitOn ' ')).headI.tail ++ rest) :: more :=
  ⟨by with_unfolding_all decide,
    c9_first_word_overflow exM3 1 1 5 0 ' ' [] "ab".data (by decide) (by decide)
      (by with_unfolding_all decide)⟩

/-- Placeholder box for out-of-range indexing into a result's box list. -/
def tbNone : TextBox :=
  { name := "", text := [], font_scale := 0, font_width := 0,
    font_color := (0, 0, 0), left_margin := 0, right_margin := 0,
    line_spacing := 0 }

/-- `front_vertical_space` (lines 496-500) recomputed from the returned
text-box list of line 564, whose entries 0, 2 and 3 are the title, points
and summary boxes. -/
def frontVSOf (s : Series) (r : CreateImageResult) : ℤ :=
  calculate_vertical_space
    [r.text_boxes.getD 0 tbNone, r.text_boxes.getD 2 tbNone,
     r.text_boxes.getD 3 tbNone]
    s.qr_size s.top_margin s.bot_margin s.line_break_spacing 2 100

/-- `back_vertical_space` (lines 502-505) recomputed from the returned
text-box list of line 564, whose entries 5 and 6 are the back title and
back body boxes. -/
def backVSOf (s : Series) (r : CreateImageResult) : ℤ :=
  calculate_vertical_space [r.text_boxes.getD 5 tbNone] 0
    s.top_margin s.bot_margin s.line_break_spacing 1
    ((r.text_boxes.getD 6 tbNone).line_height + (r.text_boxes.getD 6 tbNone).height)

/-- C4: in any completed `create_image` run (margin guides off), a face
whose required vertical space exceeds the canvas height receives no draw
commands at all and contributes a warning naming the face to the returned
log, while the other face is still drawn whenever it fits. -/
theorem c4_overflow_skip (M : Metrics) (fuel : ℕ) (save : Bool) (s : Series)
    (logs0 : List String) (r : CreateImageResult)
    (h : create_image M fuel save false s logs0 = some r) :
    (canvasH - frontVSOf s r < 0 →
      r.front = [] ∧ frontOverflowMsg s.image_name ∈ r.logs ∧
      (canvasH - backVSOf s r ≥ 0 → r.back ≠ [])) ∧
    (canvasH - backVSOf s r < 0 →
      r.back = [] ∧ backOverflowMsg ∈ r.logs ∧
      (canvasH - frontVSOf s r ≥ 0 → r.front ≠ [])) := by
  rw [create_image, Option.map_eq_some'] at h
  obtain ⟨b, hb, hr⟩ := h
  subst hr
  have hfv : frontVSOf s (composeResult s save false b) = frontVS s b := rfl
  have hbv : backVSOf s (composeResult s save false b) = backVS s b := rfl
  rw [hfv, hbv]
  constructor
  · intro hov
    have hf : ¬ (canvasH - frontVS s b ≥ 0) := not_le.mpr hov
    by_cases hbk : canvasH - backVS s b ≥ 0
    · cases save <;>
        simp [composeResult, frontFace, backFace, hf, hbk]
    · cases save <;>
        simp [composeResult, frontFace, backFace, hf, hbk]
  · intro hov
    have hk : ¬ (canvasH - backVS s b ≥ 0) := not_le.mpr hov
    by_cases hf : canvasH - frontVS s b ≥ 0
    · cases save <;>
        simp [composeResult, frontFace, backFace, hf, hk]
    · cases save <;>
        simp [composeResult, frontFace, backFace, hf, hk]

/-- `wSeries` with an oversized QR code, blowing the front face's vertical
budget while leaving the back face unaffected. -/
def wSeriesOver : Series := { wSeries with qr_size := 100000 }

/-- The completed run on the oversized record. -/
def wR4 : CreateImageResult :=
  (create_image wM 30 false false wSeriesOver []).get
    (by with_unfolding_all decide)

/-- C4 witness: on the oversized record the front face overflows, gets no
draw commands, logs its warning, and the back face is still drawn. -/
theorem c4_witness :
    (create_image wM 30 false false wSeriesOver [] = some wR4) ∧
    canvasH - frontVSOf wSeriesOver wR4 < 0 ∧
    wR4.front = [] ∧ frontOverflowMsg wSeriesOver.image_name ∈ wR4.logs ∧
    (canvasH - backVSOf wSeriesOver wR4 ≥ 0 → wR4.back ≠ []) := by
  have h : create_image wM 30 false false wSeriesOver [] = some wR4 :=
    (Option.some_get (show (create_image wM 30 false false wSeriesOver []).isSome = true by
      with_unfolding_all decide)).symm
  have hov : canvasH - frontVSOf wSeriesOver wR4 < 0 := by
    with_unfolding_all decide
  obtain ⟨h1, h2, h3⟩ := (c4_overflow_skip wM 30 false wSeriesOver [] wR4 h).1 hov
  exact ⟨h, hov, h1, h2, h3⟩

/-- C10: `place_qr` changes only the pixels in rows
`[y + padding/2, y + padding/2 + qr_height)` and columns `[x, x + qr_width)`
-- every pixel outside that rectangle keeps its input intensity -- and
returns the pair `(x + qr_width, y + padding/2 + qr_height)`. -/
theorem c10_place_qr_frame (image qr : Img) (qrH qrW x y : ℤ) (padding : ℕ)
    (r c ch : ℤ)
    (hout : ¬ (y + ((padding / 2 : ℕ) : ℤ) ≤ r ∧
      r < y + ((padding / 2 : ℕ) : ℤ) + qrH ∧ x ≤ c ∧ c < x + qrW)) :
    (place_qr image qr qrH qrW x y padding).1 r c ch = image r c ch ∧
    (place_qr image qr qrH qrW x y padding).2 =
      (x + qrW, y + ((padding / 2 : ℕ) : ℤ) + qrH) := by
  constructor
  · simp only [place_qr, if_neg hout]
  · rfl

/-- A distinguishable background image. -/
def wImg : Img := fun r c ch => r + 10 * c + 100 * ch

/-- A constant QR buffer. -/
def wQr : Img := fun _ _ _ => 7

/-- C10 witness: with a 2 x 3 QR blitted at (x, y) = (5, 1) and default
padding 200, the pixel at (0, 0, 0) lies outside the target rectangle and is
untouched, and the returned pair is (8, 103). -/
theorem c10_witness :
    (¬ ((1 : ℤ) + ((200 / 2 : ℕ) : ℤ) ≤ 0 ∧
        (0 : ℤ) < 1 + ((200 / 2 : ℕ) : ℤ) + 2 ∧ (5 : ℤ) ≤ 0 ∧ (0 : ℤ) < 5 + 3)) ∧
    ((place_qr wImg wQr 2 3 5 1 200).1 0 0 0 = wImg 0 0 0 ∧
     (place_qr wImg wQr 2 3 5 1 200).2 = (5 + 3, 1 + ((200 / 2 : ℕ) : ℤ) + 2)) :=
  ⟨by decide, c10_place_qr_frame wImg wQr 2 3 5 1 200 0 0 0 (by decide)⟩

/-- C9 is false as stated, over all input texts: a too-wide first word
containing an embedded newline is NOT placed on the following line with its
first character removed.  With the word "ab\ncd" (width 50) against limit 5,
the code emits the empty first line, then the chopped remnant is itself split
at its embedded newline: the lines are "", "b", "cd", and no line equals the
word minus its first character ("b\ncd"). -/
theorem c9_counterexample :
    ((5 : ℤ) < 0 +
      ((exM3 ((processedWords ' ' [] ("ab\ncd".data.splitOn ' ')).headI) 1 1).1 : ℤ)) ∧
    (wrapText exM3 1 1 5 0 ' ' [] "ab\ncd".data).1.splitOn '\n' =
      [[], ['b'], ['c', 'd']] ∧
    ∀ line ∈ (wrapText exM3 1 1 5 0 ' ' [] "ab\ncd".data).1.splitOn '\n',
      line ≠ (processedWords ' ' [] ("ab\ncd".data.splitOn ' ')).headI.tail :=
  ⟨by with_unfolding_all decide, by with_unfolding_all decide,
    by with_unfolding_all decide⟩
